import Mathlib

/-!
Verification of the client-side collaborative-editing synchronization core
(`src/src/collab/index.js`).  The module tracks a confirmed document version
and a queue of unconfirmed local steps, integrates authoritative batches by
trimming self-echoes and rebasing the remainder, and exposes the pending
queue for transmission.

The document/step model and the rebase engine are external collaborators of
this core; they are embedded abstractly: steps and documents are type
parameters, application and inversion are supplied by a `StepOps` record,
and the rebase engine is a parameter giving the sequence of steps it appends
to the transform.
-/

namespace Collab

/-- External step/transform collaborator: how a step applies to a document
and how a step applied at a given document is inverted. -/
structure StepOps (Step Doc : Type) where
  apply : Doc → Step → Doc
  invert : Step → Doc → Step

/-- A transform: an ordered composition of steps together with, for each
step, the document snapshot immediately preceding it (`docs[i]` precedes
`steps[i]`), and the resulting document `doc`. -/
structure Transform (Step Doc : Type) where
  doc : Doc
  steps : List Step
  docs : List Doc
  deriving Repr, DecidableEq

/-- A blank transform on the current document (the `state.tr` of the source). -/
def Transform.mk0 {Step Doc : Type} (doc : Doc) : Transform Step Doc :=
  ⟨doc, [], []⟩

/-- `transform.step(s)`: append one step, recording the preceding document. -/
def Transform.step {Step Doc : Type} (ops : StepOps Step Doc)
    (tr : Transform Step Doc) (s : Step) : Transform Step Doc :=
  ⟨ops.apply tr.doc s, tr.steps ++ [s], tr.docs ++ [tr.doc]⟩

/-- Append a sequence of steps to a transform, one at a time. -/
def Transform.addSteps {Step Doc : Type} (ops : StepOps Step Doc)
    (tr : Transform Step Doc) (ss : List Step) : Transform Step Doc :=
  ss.foldl (Transform.step ops) tr

/-- An entry of the pending queue: a local step paired with its precomputed
inverse (field names follow the source's `{step, inverted}`). -/
structure Pending (Step : Type) where
  step : Step
  inverted : Step
  deriving Repr, DecidableEq

/-- The collaborative session state: confirmed version and queue of
unconfirmed local steps (`CollabState` in the source; the source's
`RopeSequence` is embedded as a list). -/
structure CollabState (Step : Type) where
  version : Nat
  unconfirmed : List (Pending Step)
  deriving Repr, DecidableEq

/-- `unconfirmedFrom(transform, start)` from the source: for each index `i`
from `start` to the end of `transform.steps`, pair `steps[i]` with
`steps[i].invert(docs[i])`.  (`Transform` maintains
`docs.length = steps.length` by construction, so iterating the paired
indices is the zip of the two dropped lists.) -/
def unconfirmedFrom {Step Doc : Type} (ops : StepOps Step Doc)
    (tr : Transform Step Doc) (start : Nat) : List (Pending Step) :=
  List.zipWith (fun s d => ⟨s, ops.invert s d⟩)
    (tr.steps.drop start) (tr.docs.drop start)

/-- The actions the core emits or consumes, as a tagged variant: the
source's `{type: "collabConfirm", collabState}` object, the transform
action built by `transform.action({rebased, addToHistory, newCollabState,
interaction})` (local-edit transform actions carry no `newCollabState`,
hence the `Option`), and any unrelated action (the source's default
branch). -/
inductive Action (Step Doc : Type) where
  | collabConfirm (collabState : CollabState Step)
  | transform (tr : Transform Step Doc) (rebased : Nat) (addToHistory : Bool)
      (newCollabState : Option (CollabState Step)) (interaction : Bool)
  | other
  deriving Repr, DecidableEq

/-- The session state carried by a sync action, when any. -/
def Action.collabState {Step Doc : Type} :
    Action Step Doc → Option (CollabState Step)
  | .collabConfirm cs => some cs
  | .transform _ _ _ ncs _ => ncs
  | .other => none

/-- Whether an action is a confirm action. -/
def Action.isConfirm {Step Doc : Type} : Action Step Doc → Bool
  | .collabConfirm _ => true
  | _ => false

/-- The source's self-echo prefix scan:
`while (ours < clientIDs.length && clientIDs[ours] == ourID) ++ours`. -/
def oursCount (clientIDs : List Nat) (ourID : Nat) : Nat :=
  match clientIDs with
  | [] => 0
  | id :: rest => if id = ourID then oursCount rest ourID + 1 else 0

/-- Modelled from the spec: the rebase engine (`rebaseSteps`, required from
`./rebase`, whose source is not part of this corpus) "appends to `transform`
such that the remote steps are applied first and the local steps are
reapplied with positional adjustment"; its concrete adjustment policy is
document-model-specific.  It is embedded abstractly as a function
`rebaseSeq` from (current document, local steps, their inverses, remote
steps) to the ordered sequence of steps the engine appends to the transform
via `Transform.step`. -/
def rebaseSteps {Step Doc : Type} (ops : StepOps Step Doc)
    (tr : Transform Step Doc)
    (rebaseSeq : Doc → List Step → List Step → List Step → List Step)
    (localSteps localInverted remoteSteps : List Step) : Transform Step Doc :=
  tr.addSteps ops (rebaseSeq tr.doc localSteps localInverted remoteSteps)

/-- `receiveAction(state, steps, clientIDs, ourID)` from the source:
compute the self-echo prefix length, advance the version by the full batch
length, trim the pending queue; emit a confirm action when no remote steps
remain, otherwise build a transform (a rebase when trimmed pending entries
remain, a direct application otherwise), recompute the queue from its tail
and emit a transform action. -/
def receiveAction {Step Doc : Type} (ops : StepOps Step Doc)
    (rebaseSeq : Doc → List Step → List Step → List Step → List Step)
    (doc : Doc) (collab : CollabState Step)
    (steps : List Step) (clientIDs : List Nat) (ourID : Nat) :
    Action Step Doc :=
  let version := collab.version + steps.length
  let ours := oursCount clientIDs ourID
  let unconfirmed := collab.unconfirmed.drop ours
  let steps2 := steps.drop ours
  if steps2.length = 0 then
    .collabConfirm ⟨version, unconfirmed⟩
  else
    let nUnconfirmed := unconfirmed.length
    let tr0 : Transform Step Doc := Transform.mk0 doc
    let tr :=
      if nUnconfirmed ≠ 0 then
        rebaseSteps ops tr0 rebaseSeq
          (unconfirmed.map (fun s => s.step))
          (unconfirmed.map (fun s => s.inverted)) steps2
      else
        tr0.addSteps ops steps2
    let unconfirmed2 := unconfirmedFrom ops tr (nUnconfirmed + steps2.length)
    .transform tr nUnconfirmed false (some ⟨version, unconfirmed2⟩) false

/-- `sendableSteps(state)` payload shape. -/
structure Sendable (Step : Type) where
  version : Nat
  steps : List Step
  clientID : Nat
  deriving Repr, DecidableEq

/-- `sendableSteps(state)` from the source: `null` when the pending queue is
empty, otherwise the version, the pending steps without their inverses, and
the client ID. -/
def sendableSteps {Step : Type} (collab : CollabState Step) (clientID : Nat) :
    Option (Sendable Step) :=
  if collab.unconfirmed.length = 0 then none
  else some ⟨collab.version, collab.unconfirmed.map (fun s => s.step), clientID⟩

/-- `applyAction` of the `collab` state field from the source: a transform
action yields its carried `newCollabState` when present, otherwise (a local
edit) the old version with `unconfirmedFrom(action.transform)` appended to
the queue; a confirm action yields its carried state; anything else leaves
the state unchanged. -/
def applyAction {Step Doc : Type} (ops : StepOps Step Doc)
    (collab : CollabState Step) (a : Action Step Doc) : CollabState Step :=
  match a with
  | .transform tr _ _ ncs _ =>
      (ncs.getD ⟨collab.version,
        collab.unconfirmed ++ unconfirmedFrom ops tr 0⟩)
  | .collabConfirm cs => cs
  | .other => collab

/-- A local edit as the core sees it: the editor applies `newSteps` to the
current document as a transform and dispatches a transform action carrying
no `newCollabState`; the `collab` field folds it in with `applyAction`. -/
def onLocalEdit {Step Doc : Type} (ops : StepOps Step Doc)
    (collab : CollabState Step) (doc : Doc) (newSteps : List Step) :
    CollabState Step :=
  applyAction ops collab
    (.transform (Transform.addSteps ops (Transform.mk0 doc) newSteps)
      0 true none true)

/-- Embedding of the `clientID` initialization of `collab(options)`
(src/src/collab/index.js lines 100-101).  The binding is declared `const`;
when `options.clientID` is null or absent the code assigns the random
default to the `const` binding, which in JavaScript raises
`TypeError: Assignment to constant variable.` instead of completing. -/
def collabClientID (optionsClientID : Option Nat) (_random : Nat) :
    Except String Nat :=
  match optionsClientID with
  | some cid => Except.ok cid
  | none => Except.error "TypeError: Assignment to constant variable."

/-- The document reached by applying a list of steps in order. -/
def applyList {Step Doc : Type} (ops : StepOps Step Doc)
    (doc : Doc) (ss : List Step) : Doc :=
  ss.foldl ops.apply doc

/-- For each step of a list applied in order from `doc`, the document
snapshot immediately preceding that step. -/
def docsAlong {Step Doc : Type} (ops : StepOps Step Doc) (doc : Doc) :
    List Step → List Doc
  | [] => []
  | s :: ss => doc :: docsAlong ops (ops.apply doc s) ss

/-- The spec's description of pending-queue entries for a run of steps
applied in order from `doc`: one `{step, inverse}` pair per step, in
application order, each inverse computed against the document immediately
preceding its step. -/
def localPairs {Step Doc : Type} (ops : StepOps Step Doc) (doc : Doc) :
    List Step → List (Pending Step)
  | [] => []
  | s :: ss => ⟨s, ops.invert s doc⟩ :: localPairs ops (ops.apply doc s) ss

/-- Concrete step model used to instantiate the development on examples:
a document is a number, applying a step adds it, and the inverse of a step
depends on the document it was applied at. -/
def natOps : StepOps Nat Nat :=
  ⟨fun d s => d + s, fun s d => s + 2 * d⟩

/-- A concrete rebase engine for examples, shaped like the real one: undo
the pending local steps with their inverses, apply the remote steps, then
reapply the local steps. -/
def natRebase : Nat → List Nat → List Nat → List Nat → List Nat :=
  fun _ ls inv rs => inv.reverse ++ rs ++ ls

end Collab

namespace Collab

/-- The self-echo prefix scan never counts past the end of the origin list. -/
theorem oursCount_le (clientIDs : List Nat) (ourID : Nat) :
    oursCount clientIDs ourID ≤ clientIDs.length := by
  induction clientIDs with
  | nil => simp [oursCount]
  | cons id rest ih =>
      by_cases h : id = ourID
      · simp [oursCount, h]; omega
      · simp [oursCount, h]

/-- The self-echo prefix scan covers the whole origin list exactly when
every origin is the local client. -/
theorem oursCount_eq_length_iff (clientIDs : List Nat) (ourID : Nat) :
    oursCount clientIDs ourID = clientIDs.length ↔
      ∀ id ∈ clientIDs, id = ourID := by
  induction clientIDs with
  | nil => simp [oursCount]
  | cons id rest ih =>
      by_cases h : id = ourID
      · simp [oursCount, h, ih]
      · constructor
        · intro hc
          have := oursCount_le rest ourID
          simp [oursCount, h] at hc
        · intro hall
          exact absurd (hall id (by simp)) h

/-- On an origin list made of `k` copies of the local client followed by
origins that are all foreign, the self-echo prefix scan counts exactly `k`. -/
theorem oursCount_replicate_append (k : Nat) (rest : List Nat) (ourID : Nat)
    (hrest : ∀ id ∈ rest, id ≠ ourID) :
    oursCount (List.replicate k ourID ++ rest) ourID = k := by
  induction k with
  | zero =>
      cases rest with
      | nil => simp [oursCount]
      | cons id tl =>
          have : id ≠ ourID := hrest id (by simp)
          simp [oursCount, this]
  | succ n ih => simp [List.replicate_succ, oursCount, ih]

/-- Whatever the batch, `receiveAction` carries a new session state whose
version is the old version plus the full batch length. -/
theorem receiveAction_version_aux {Step Doc : Type} (ops : StepOps Step Doc)
    (rebaseSeq : Doc → List Step → List Step → List Step → List Step)
    (doc : Doc) (collab : CollabState Step)
    (steps : List Step) (clientIDs : List Nat) (ourID : Nat) :
    ∃ cs, (receiveAction ops rebaseSeq doc collab steps clientIDs
        ourID).collabState = some cs ∧
      cs.version = collab.version + steps.length := by
  unfold receiveAction
  by_cases h : steps.length - oursCount clientIDs ourID = 0
  · simp [List.length_drop, h, Action.collabState]
  · simp [List.length_drop, h, Action.collabState]

/-- **C1**: on a batch whose origin list is `k` copies of the local client
followed by `m` foreign origins, with at least `k` pending entries and a
conformant batch length, the trimming step of `receiveAction` drops exactly
the first `k` pending entries (the scan counts `k`, so the queue is cut to
its suffix from `k`, shortening it by exactly `k`), and the carried version
is the old version plus `k + m`. -/
theorem receiveAction_confirm_prefix {Step Doc : Type} (ops : StepOps Step Doc)
    (rebaseSeq : Doc → List Step → List Step → List Step → List Step)
    (doc : Doc) (collab : CollabState Step) (steps : List Step)
    (k : Nat) (rest : List Nat) (ourID : Nat)
    (hrest : ∀ id ∈ rest, id ≠ ourID)
    (hk : k ≤ collab.unconfirmed.length)
    (hlen : steps.length = k + rest.length) :
    oursCount (List.replicate k ourID ++ rest) ourID = k ∧
    collab.unconfirmed.drop
        (oursCount (List.replicate k ourID ++ rest) ourID) =
      collab.unconfirmed.drop k ∧
    (collab.unconfirmed.drop
        (oursCount (List.replicate k ourID ++ rest) ourID)).length + k =
      collab.unconfirmed.length ∧
    ∃ cs, (receiveAction ops rebaseSeq doc collab steps
        (List.replicate k ourID ++ rest) ourID).collabState = some cs ∧
      cs.version = collab.version + (k + rest.length) := by
  have hours := oursCount_replicate_append k rest ourID hrest
  refine ⟨hours, by rw [hours], ?_, ?_⟩
  · rw [hours, List.length_drop]; omega
  · obtain ⟨cs, hcs, hv⟩ := receiveAction_version_aux ops rebaseSeq doc collab
      steps (List.replicate k ourID ++ rest) ourID
    exact ⟨cs, hcs, by rw [hv, hlen]⟩

/-- Closed witness for `receiveAction_confirm_prefix`: a state with two
pending entries receiving a batch of one self-echo and one foreign step. -/
theorem receiveAction_confirm_prefix_witness :
    oursCount (List.replicate 1 7 ++ [9]) 7 = 1 ∧
    (CollabState.mk 5 [⟨2, 9⟩, ⟨4, 11⟩]).unconfirmed.drop
        (oursCount (List.replicate 1 7 ++ [9]) 7) =
      (CollabState.mk 5 [⟨2, 9⟩, ⟨4, 11⟩]).unconfirmed.drop 1 ∧
    ((CollabState.mk 5 [⟨2, 9⟩, ⟨4, 11⟩]).unconfirmed.drop
        (oursCount (List.replicate 1 7 ++ [9]) 7)).length + 1 =
      (CollabState.mk 5 [⟨2, 9⟩, ⟨4, 11⟩]).unconfirmed.length ∧
    ∃ cs, (receiveAction natOps natRebase 100
        (CollabState.mk 5 [⟨2, 9⟩, ⟨4, 11⟩]) [2, 3]
        (List.replicate 1 7 ++ [9]) 7).collabState = some cs ∧
      cs.version = (CollabState.mk 5 [⟨2, 9⟩, ⟨4, 11⟩]).version + (1 + 1) :=
  receiveAction_confirm_prefix natOps natRebase 100
    (CollabState.mk 5 [⟨2, 9⟩, ⟨4, 11⟩]) [2, 3] 1 [9] 7
    (by decide) (by decide) (by decide)

/-- **C2**: on a conformant batch, `receiveAction` returns a confirm action
exactly when every origin in the batch is the local client; in that case the
action carries the advanced version and the trimmed pending queue and no
transform is performed, and otherwise the result is a transform action. -/
theorem receiveAction_confirm_iff {Step Doc : Type} (ops : StepOps Step Doc)
    (rebaseSeq : Doc → List Step → List Step → List Step → List Step)
    (doc : Doc) (collab : CollabState Step)
    (steps : List Step) (clientIDs : List Nat) (ourID : Nat)
    (hlen : steps.length = clientIDs.length) :
    ((receiveAction ops rebaseSeq doc collab steps clientIDs
        ourID).isConfirm = true ↔ ∀ id ∈ clientIDs, id = ourID) ∧
    ((∀ id ∈ clientIDs, id = ourID) →
      receiveAction ops rebaseSeq doc collab steps clientIDs ourID =
        Action.collabConfirm ⟨collab.version + steps.length,
          collab.unconfirmed.drop (oursCount clientIDs ourID)⟩) ∧
    ((¬ ∀ id ∈ clientIDs, id = ourID) →
      ∃ tr n cs, receiveAction ops rebaseSeq doc collab steps clientIDs
          ourID = Action.transform tr n false (some cs) false) := by
  have hempty : steps.length - oursCount clientIDs ourID = 0 ↔
      ∀ id ∈ clientIDs, id = ourID := by
    constructor
    · intro h
      have hle := oursCount_le clientIDs ourID
      rw [← oursCount_eq_length_iff]
      omega
    · intro h
      rw [← oursCount_eq_length_iff] at h
      omega
  refine ⟨?_, ?_, ?_⟩
  · unfold receiveAction
    by_cases h : steps.length - oursCount clientIDs ourID = 0
    · simp only [List.length_drop, h, if_pos rfl]
      simpa [Action.isConfirm] using hempty.mp h
    · simp [List.length_drop, h, Action.isConfirm]
      by_contra hc
      push_neg at hc
      exact h (hempty.mpr hc)
  · intro hall
    unfold receiveAction
    simp [List.length_drop, hempty.mpr hall]
  · intro hnot
    have h : ¬ steps.length - oursCount clientIDs ourID = 0 :=
      fun hc => hnot (hempty.mp hc)
    unfold receiveAction
    simp [List.length_drop, h]

/-- Closed witness for `receiveAction_confirm_iff`: a mixed batch of one
echo and one foreign step is not all-local, hence a transform action. -/
theorem receiveAction_confirm_iff_witness :
    ((receiveAction natOps natRebase 100 (CollabState.mk 5 [⟨2, 9⟩])
        [2, 3] [7, 9] 7).isConfirm = true ↔ ∀ id ∈ [7, 9], id = 7) ∧
    ((∀ id ∈ [7, 9], id = 7) →
      receiveAction natOps natRebase 100 (CollabState.mk 5 [⟨2, 9⟩])
          [2, 3] [7, 9] 7 =
        Action.collabConfirm ⟨(CollabState.mk 5 [⟨2, 9⟩]).version + 2,
          (CollabState.mk 5 [⟨2, 9⟩]).unconfirmed.drop
            (oursCount [7, 9] 7)⟩) ∧
    ((¬ ∀ id ∈ [7, 9], id = 7) →
      ∃ tr n cs, receiveAction natOps natRebase 100
          (CollabState.mk 5 [⟨2, 9⟩]) [2, 3] [7, 9] 7 =
        Action.transform tr n false (some cs) false) :=
  receiveAction_confirm_iff natOps natRebase 100 (CollabState.mk 5 [⟨2, 9⟩])
    [2, 3] [7, 9] 7 (by decide)

/-- **C10**: `receiveAction` validates nothing and is total: for every
batch, conformant or not, the carried version is the old version plus
`steps.length` (the scan runs over the origin list alone, which may be
longer or shorter than the steps), a scan count at or past the end of the
steps yields a confirm action, and a scan count at or past the end of the
pending queue trims it to empty rather than failing. -/
theorem receiveAction_total {Step Doc : Type} (ops : StepOps Step Doc)
    (rebaseSeq : Doc → List Step → List Step → List Step → List Step)
    (doc : Doc) (collab : CollabState Step)
    (steps : List Step) (clientIDs : List Nat) (ourID : Nat) :
    (∃ cs, (receiveAction ops rebaseSeq doc collab steps clientIDs
        ourID).collabState = some cs ∧
      cs.version = collab.version + steps.length) ∧
    (steps.length ≤ oursCount clientIDs ourID →
      receiveAction ops rebaseSeq doc collab steps clientIDs ourID =
        Action.collabConfirm ⟨collab.version + steps.length,
          collab.unconfirmed.drop (oursCount clientIDs ourID)⟩) ∧
    (collab.unconfirmed.length ≤ oursCount clientIDs ourID →
      collab.unconfirmed.drop (oursCount clientIDs ourID) = []) := by
  refine ⟨receiveAction_version_aux ops rebaseSeq doc collab steps clientIDs
    ourID, ?_, ?_⟩
  · intro h
    have hempty : steps.length - oursCount clientIDs ourID = 0 := by omega
    unfold receiveAction
    simp [List.length_drop, hempty]
  · intro h
    exact List.drop_eq_nil_of_le h

/-- Closed witness for `receiveAction_total`: a non-conformant batch with
two origin entries but no steps, whose scan count exceeds both the step
count and the pending-queue length. -/
theorem receiveAction_total_witness :
    (∃ cs, (receiveAction natOps natRebase 100 (CollabState.mk 5 [⟨2, 9⟩])
        ([] : List Nat) [7, 7] 7).collabState = some cs ∧
      cs.version = (CollabState.mk 5 [⟨2, 9⟩]).version + 0) ∧
    (receiveAction natOps natRebase 100 (CollabState.mk 5 [⟨2, 9⟩])
        ([] : List Nat) [7, 7] 7 =
      Action.collabConfirm ⟨(CollabState.mk 5 [⟨2, 9⟩]).version + 0,
        (CollabState.mk 5 [⟨2, 9⟩]).unconfirmed.drop
          (oursCount [7, 7] 7)⟩) ∧
    ((CollabState.mk 5 [⟨2, 9⟩]).unconfirmed.drop
      (oursCount [7, 7] 7) = []) := by
  obtain ⟨h1, h2, h3⟩ := receiveAction_total natOps natRebase 100
    (CollabState.mk 5 [⟨2, 9⟩]) ([] : List Nat) [7, 7] 7
  exact ⟨h1, h2 (by decide), h3 (by decide)⟩

/-- **C4**: for every session state, `receiveAction` on the empty batch
(empty steps, empty origin list) returns a confirm action carrying the
unchanged version and the unchanged pending queue. -/
theorem receiveAction_empty_batch {Step Doc : Type} (ops : StepOps Step Doc)
    (rebaseSeq : Doc → List Step → List Step → List Step → List Step)
    (doc : Doc) (collab : CollabState Step) (ourID : Nat) :
    receiveAction ops rebaseSeq doc collab [] [] ourID =
      Action.collabConfirm ⟨collab.version, collab.unconfirmed⟩ := by
  simp [receiveAction, oursCount]

/-- Appending steps to a transform appends exactly those steps. -/
theorem addSteps_steps {Step Doc : Type} (ops : StepOps Step Doc)
    (tr : Transform Step Doc) (ss : List Step) :
    (Transform.addSteps ops tr ss).steps = tr.steps ++ ss := by
  induction ss generalizing tr with
  | nil => simp [Transform.addSteps]
  | cons s ss ih =>
      simp [Transform.addSteps] at ih ⊢
      rw [ih]
      simp [Transform.step]

/-- Appending steps to a transform records, for each appended step, the
document snapshot immediately preceding it. -/
theorem addSteps_docs {Step Doc : Type} (ops : StepOps Step Doc)
    (tr : Transform Step Doc) (ss : List Step) :
    (Transform.addSteps ops tr ss).docs = tr.docs ++ docsAlong ops tr.doc ss := by
  induction ss generalizing tr with
  | nil => simp [Transform.addSteps, docsAlong]
  | cons s ss ih =>
      simp [Transform.addSteps] at ih ⊢
      rw [ih]
      simp [Transform.step, docsAlong]

/-- The snapshot list of a step run has one snapshot per step. -/
theorem docsAlong_length {Step Doc : Type} (ops : StepOps Step Doc)
    (doc : Doc) (ss : List Step) :
    (docsAlong ops doc ss).length = ss.length := by
  induction ss generalizing doc with
  | nil => simp [docsAlong]
  | cons s ss ih => simp [docsAlong, ih]

/-- Dropping a prefix of a snapshot list yields the snapshot list of the
remaining steps, started from the document the prefix reaches. -/
theorem docsAlong_drop {Step Doc : Type} (ops : StepOps Step Doc)
    (doc : Doc) (ss : List Step) (k : Nat) :
    (docsAlong ops doc ss).drop k =
      docsAlong ops (applyList ops doc (ss.take k)) (ss.drop k) := by
  induction ss generalizing doc k with
  | nil => simp [docsAlong, applyList]
  | cons s ss ih =>
      cases k with
      | zero => simp [applyList]
      | succ n => simp [docsAlong, applyList, ih, List.foldl_cons]

/-- Zipping a step run with its snapshot list and inverting pointwise is
the spec-side pairing `localPairs`. -/
theorem zipWith_docsAlong {Step Doc : Type} (ops : StepOps Step Doc)
    (doc : Doc) (ss : List Step) :
    List.zipWith (fun s d => Pending.mk s (ops.invert s d)) ss
        (docsAlong ops doc ss) = localPairs ops doc ss := by
  induction ss generalizing doc with
  | nil => simp [docsAlong, localPairs]
  | cons s ss ih => simp [docsAlong, localPairs, ih]

/-- The queue recomputation of the source: on a transform built by applying
a run of steps to the current document, `unconfirmedFrom` from index
`start` yields exactly the spec-side pairs of the steps from `start` on,
each inverse computed against the document reached by the steps before
it. -/
theorem unconfirmedFrom_addSteps {Step Doc : Type} (ops : StepOps Step Doc)
    (doc : Doc) (ss : List Step) (start : Nat) :
    unconfirmedFrom ops (Transform.addSteps ops (Transform.mk0 doc) ss)
        start =
      localPairs ops (applyList ops doc (ss.take start)) (ss.drop start) := by
  unfold unconfirmedFrom
  rw [addSteps_steps, addSteps_docs]
  simp only [Transform.mk0, List.nil_append]
  rw [docsAlong_drop]
  exact zipWith_docsAlong ops _ _

/-- Dropping the inverses from the spec-side pairs recovers the steps. -/
theorem localPairs_map_step {Step Doc : Type} (ops : StepOps Step Doc)
    (doc : Doc) (ss : List Step) :
    (localPairs ops doc ss).map (fun p => p.step) = ss := by
  induction ss generalizing doc with
  | nil => simp [localPairs]
  | cons s ss ih => simp [localPairs, ih]

/-- The spec-side pairing has one entry per step. -/
theorem localPairs_length {Step Doc : Type} (ops : StepOps Step Doc)
    (doc : Doc) (ss : List Step) :
    (localPairs ops doc ss).length = ss.length := by
  induction ss generalizing doc with
  | nil => simp [localPairs]
  | cons s ss ih => simp [localPairs, ih]

/-- **C7**: a local edit leaves the version unchanged and appends to the
pending queue exactly one `{step, inverse}` pair per new step, in
application order, each inverse computed against the document immediately
preceding its step; nothing else of the session state changes. -/
theorem onLocalEdit_appends {Step Doc : Type} (ops : StepOps Step Doc)
    (collab : CollabState Step) (doc : Doc) (newSteps : List Step) :
    onLocalEdit ops collab doc newSteps =
      ⟨collab.version, collab.unconfirmed ++ localPairs ops doc newSteps⟩ ∧
    (localPairs ops doc newSteps).map (fun p => p.step) = newSteps ∧
    (localPairs ops doc newSteps).length = newSteps.length := by
  refine ⟨?_, localPairs_map_step ops doc newSteps,
    localPairs_length ops doc newSteps⟩
  unfold onLocalEdit applyAction
  have h := unconfirmedFrom_addSteps ops doc newSteps 0
  simp only [List.take_zero, List.drop_zero, applyList, List.foldl_nil] at h
  simp [h]

/-- **C3**: whenever `receiveAction` emits a transform action (remote steps
remained after trimming), the carried pending queue is exactly the steps of
the resulting transform from index (remaining-unconfirmed count + remaining
remote-step count) to the end, each paired with an inverse computed against
the document snapshot immediately preceding it (the document reached by
applying all earlier steps of the transform to the current document). -/
theorem receiveAction_transform_unconfirmed {Step Doc : Type}
    (ops : StepOps Step Doc)
    (rebaseSeq : Doc → List Step → List Step → List Step → List Step)
    (doc : Doc) (collab : CollabState Step)
    (steps : List Step) (clientIDs : List Nat) (ourID : Nat)
    (tr : Transform Step Doc) (reb : Nat) (hist : Bool)
    (cs : CollabState Step) (inter : Bool)
    (h : receiveAction ops rebaseSeq doc collab steps clientIDs ourID =
      Action.transform tr reb hist (some cs) inter) :
    cs.unconfirmed =
      localPairs ops
        (applyList ops doc (tr.steps.take
          ((collab.unconfirmed.drop (oursCount clientIDs ourID)).length +
            (steps.drop (oursCount clientIDs ourID)).length)))
        (tr.steps.drop
          ((collab.unconfirmed.drop (oursCount clientIDs ourID)).length +
            (steps.drop (oursCount clientIDs ourID)).length)) := by
  unfold receiveAction at h
  by_cases hc : (steps.drop (oursCount clientIDs ourID)).length = 0
  · rw [if_pos hc] at h
    exact absurd h (by simp)
  · rw [if_neg hc] at h
    rw [Action.transform.injEq] at h
    obtain ⟨htr, -, -, hcs, -⟩ := h
    subst htr
    obtain rfl := Option.some.inj hcs
    dsimp only
    by_cases hn :
        (collab.unconfirmed.drop (oursCount clientIDs ourID)).length ≠ 0
    · rw [if_pos hn]
      unfold rebaseSteps
      rw [unconfirmedFrom_addSteps, addSteps_steps]
      simp [Transform.mk0]
    · rw [if_neg hn]
      rw [unconfirmedFrom_addSteps, addSteps_steps]
      simp [Transform.mk0]

/-- Closed witness for `receiveAction_transform_unconfirmed`: one pending
local step rebased over one foreign step with the example engine. -/
theorem receiveAction_transform_unconfirmed_witness :
    (CollabState.mk 6 [⟨2, 226⟩]).unconfirmed =
      localPairs natOps
        (applyList natOps 100 ((Transform.mk 114 [9, 3, 2]
            [100, 109, 112]).steps.take
          (((CollabState.mk 5 [⟨2, 9⟩]).unconfirmed.drop
              (oursCount [9] 7)).length +
            (([3] : List Nat).drop (oursCount [9] 7)).length)))
        ((Transform.mk 114 [9, 3, 2] [100, 109, 112]).steps.drop
          (((CollabState.mk 5 [⟨2, 9⟩]).unconfirmed.drop
              (oursCount [9] 7)).length +
            (([3] : List Nat).drop (oursCount [9] 7)).length)) :=
  receiveAction_transform_unconfirmed natOps natRebase 100
    (CollabState.mk 5 [⟨2, 9⟩]) [3] [9] 7
    (Transform.mk 114 [9, 3, 2] [100, 109, 112]) 1 false
    (CollabState.mk 6 [⟨2, 226⟩]) false (by decide)

/-- **C6**: every transform action emitted by `receiveAction` carries the
new session state with version advanced by the full batch length, a rebased
count equal to the number of pending entries remaining after self-echo
trimming, a false interaction flag and a false add-to-history directive. -/
theorem receiveAction_transform_flags {Step Doc : Type}
    (ops : StepOps Step Doc)
    (rebaseSeq : Doc → List Step → List Step → List Step → List Step)
    (doc : Doc) (collab : CollabState Step)
    (steps : List Step) (clientIDs : List Nat) (ourID : Nat)
    (tr : Transform Step Doc) (reb : Nat) (hist : Bool)
    (ncs : Option (CollabState Step)) (inter : Bool)
    (h : receiveAction ops rebaseSeq doc collab steps clientIDs ourID =
      Action.transform tr reb hist ncs inter) :
    reb = (collab.unconfirmed.drop (oursCount clientIDs ourID)).length ∧
    hist = false ∧ inter = false ∧
    ∃ cs, ncs = some cs ∧
      cs.version = collab.version + steps.length := by
  unfold receiveAction at h
  by_cases hc : (steps.drop (oursCount clientIDs ourID)).length = 0
  · rw [if_pos hc] at h
    exact absurd h (by simp)
  · rw [if_neg hc] at h
    rw [Action.transform.injEq] at h
    obtain ⟨-, hreb, hhist, hcs, hinter⟩ := h
    exact ⟨hreb.symm, hhist.symm, hinter.symm, _, hcs.symm, rfl⟩

/-- Closed witness for `receiveAction_transform_flags`: the mixed batch of
one echo and one foreign step. -/
theorem receiveAction_transform_flags_witness :
    0 = ((CollabState.mk 5 [⟨2, 9⟩]).unconfirmed.drop
        (oursCount [7, 9] 7)).length ∧
    false = false ∧ false = false ∧
    ∃ cs, some (CollabState.mk 7 ([] : List (Pending Nat))) = some cs ∧
      cs.version = (CollabState.mk 5 [⟨2, 9⟩]).version + 2 :=
  receiveAction_transform_flags natOps natRebase 100
    (CollabState.mk 5 [⟨2, 9⟩]) [2, 3] [7, 9] 7
    (Transform.mk 103 [3] [100]) 0 false
    (some (CollabState.mk 7 ([] : List (Pending Nat)))) false (by decide)

/-- **C8**: `sendableSteps` returns nothing exactly when the pending queue
is empty; otherwise the payload carries the state's version, the pending
steps in queue order with their inverses dropped, and the session's client
ID. -/
theorem sendableSteps_spec {Step : Type} (collab : CollabState Step)
    (clientID : Nat) :
    (sendableSteps collab clientID = none ↔ collab.unconfirmed = []) ∧
    (∀ p, sendableSteps collab clientID = some p →
      p.version = collab.version ∧
      p.steps = collab.unconfirmed.map (fun s => s.step) ∧
      p.clientID = clientID) := by
  unfold sendableSteps
  by_cases h : collab.unconfirmed.length = 0
  · simp [h, List.length_eq_zero.mp h]
  · constructor
    · simp [h]
      exact fun hc => h (by rw [hc]; rfl)
    · intro p hp
      rw [if_neg h] at hp
      obtain rfl := Option.some.inj hp.symm
      exact ⟨rfl, rfl, rfl⟩

/-- Closed witness for `sendableSteps_spec`: a state with one pending
entry yields the payload with that step, the version and the client ID. -/
theorem sendableSteps_spec_witness :
    (sendableSteps (CollabState.mk 5 [⟨2, 9⟩]) 7 = none ↔
      (CollabState.mk 5 [⟨2, 9⟩]).unconfirmed = []) ∧
    ((Sendable.mk 5 [2] 7).version = (CollabState.mk 5 [⟨2, 9⟩]).version ∧
      (Sendable.mk 5 [2] 7).steps =
        (CollabState.mk 5 [⟨2, 9⟩]).unconfirmed.map (fun s => s.step) ∧
      (Sendable.mk 5 [2] 7).clientID = 7) :=
  ⟨(sendableSteps_spec (CollabState.mk 5 [⟨2, 9⟩]) 7).1,
    (sendableSteps_spec (CollabState.mk 5 [⟨2, 9⟩]) 7).2
      (Sendable.mk 5 [2] 7) (by decide)⟩

/-- **C9**: `sendableSteps` is a deterministic, read-only projection of the
session state: its result depends only on the state's version and pending
queue, so two calls on the same state (no intervening edit or sync) return
equal results, and on an empty pending queue both return nothing. -/
theorem sendableSteps_deterministic {Step : Type}
    (s1 s2 : CollabState Step) (clientID : Nat)
    (hv : s1.version = s2.version)
    (hu : s1.unconfirmed = s2.unconfirmed) :
    sendableSteps s1 clientID = sendableSteps s2 clientID ∧
    (s1.unconfirmed = [] → sendableSteps s1 clientID = none ∧
      sendableSteps s2 clientID = none) := by
  obtain ⟨v1, u1⟩ := s1
  obtain ⟨v2, u2⟩ := s2
  cases hv
  cases hu
  refine ⟨rfl, fun he => ?_⟩
  have : u1 = [] := he
  simp [sendableSteps, this]

/-- Closed witness for `sendableSteps_deterministic`: two reads of the same
concrete state agree. -/
theorem sendableSteps_deterministic_witness :
    sendableSteps (CollabState.mk 5 [(⟨2, 9⟩ : Pending Nat)]) 7 =
      sendableSteps (CollabState.mk 5 [⟨2, 9⟩]) 7 ∧
    ((CollabState.mk 5 [(⟨2, 9⟩ : Pending Nat)]).unconfirmed = [] →
      sendableSteps (CollabState.mk 5 [(⟨2, 9⟩ : Pending Nat)]) 7 = none ∧
      sendableSteps (CollabState.mk 5 [⟨2, 9⟩]) 7 = none) :=
  sendableSteps_deterministic (CollabState.mk 5 [⟨2, 9⟩])
    (CollabState.mk 5 [⟨2, 9⟩]) 7 (by decide) (by decide)

/-- **C5**: the claim fails on the code: when no client ID is configured,
`collab` assigns the random default to a binding declared `const`, so the
call raises a TypeError instead of completing with a positive random client
ID. -/
theorem collabClientID_default_raises :
    collabClientID none 12345 =
      Except.error "TypeError: Assignment to constant variable." := rfl

end Collab
